import Mathlib

/-!
Shallow embedding of `main.go` from `custom-per-tools`.

The program repeatedly runs the external `hey` load generator, scrapes each
textual report into a string-keyed record (`parseHeyFile`), serialises the
records to a CSV file (`writeCSV`), reads the CSV back into typed rows
(`readCSV`), and renders line charts per metric.

Modelling choices:
* Numeric values are exact rationals (`ℚ`).  The program only parses decimal
  strings with `strconv.ParseFloat`, compares them with zero, and reformats
  them with `fmt.Sprintf("%.4f", ·)`; it performs no floating-point
  arithmetic, so exact decimal semantics coincide with `float64` semantics on
  every value the claims exercise (`float64` only diverges on inputs needing
  more than about 15 significant digits or subnormal magnitudes).
* File I/O is made explicit: `parseHeyFile` receives the file's content as an
  `Option String` (`none` models an unreadable file, mirroring the ignored
  `os.Open` error, after which `bufio.Scanner` yields no lines).
* The `encoding/csv` wire format is treated as a faithful transport of rows:
  `writeCSVRows` produces the header row plus one row of cells per record and
  `readCSVRows` consumes such rows, exactly as `csv.Writer.Write` /
  `csv.Reader.Read`+`ReadAll` move `[]string` values in and out of the file.
* Go `map[string]string` records become association lists where an insert
  prepends (so a later insert shadows an earlier one) and a read of an
  absent key yields the zero value `""`.  The Go source iterates its two
  regexp maps in unspecified order; the keys are pairwise distinct, so a
  fixed iteration order produces the same record.
-/

namespace PerTools

/-- Characters matched by the regexp class `[\d.]`. -/
def isDigitDot (c : Char) : Bool := c.isDigit || c == '.'

/-- Characters matched by Go's regexp class `\s`:
tab, newline, form feed, carriage return, space. -/
def isGoSpace (c : Char) : Bool :=
  c == '\t' || c == '\n' || c == '\x0c' || c == '\r' || c == ' '

/-- Decimal digits read most-significant first, as
`strconv.ParseFloat` accumulates a mantissa. -/
def digitsToNat (ds : List Char) : Nat :=
  ds.foldl (fun n c => n * 10 + (c.toNat - 48)) 0

/-- Leading sign of a numeric literal: `-` sets the flag,
`+` or no sign leaves it clear. -/
def splitSign : List Char → Bool × List Char
  | '+' :: r => (false, r)
  | '-' :: r => (true, r)
  | r => (false, r)

/-- Exponent part `e±ddd` of `strconv.ParseFloat`'s decimal syntax.  The
signed mantissa digits `sd` and the count `fracLen` of fractional digits
are combined into the exact value `sd · 10^(±e) / 10^fracLen`, written with
`Rat.divInt` over integer arithmetic. -/
def applyExp (sd : ℤ) (fracLen : Nat) (t : List Char) : Option ℚ :=
  let p := splitSign t
  let ds := p.2.takeWhile Char.isDigit
  let rest := p.2.dropWhile Char.isDigit
  if ds.isEmpty || !rest.isEmpty then none
  else if p.1 then some (Rat.divInt sd (10 ^ (fracLen + digitsToNat ds)))
  else some (Rat.divInt (sd * 10 ^ digitsToNat ds) (10 ^ fracLen))

/-- `strconv.ParseFloat(s, 64)` on its decimal syntax
(`[+-]? digits [. digits] [eE [+-] digits]`, at least one mantissa digit),
with the value kept exact in `ℚ`: the result is
`± mantissaDigits · 10^(±e) / 10^fracLen`.  The special forms the program
never produces nor stores (hex floats, `Inf`, `NaN`, digit-separating
underscores) are rejected, i.e. parse to `none`. -/
def goParseFloat (s : List Char) : Option ℚ :=
  let p := splitSign s
  let ip := p.2.takeWhile Char.isDigit
  let r1 := p.2.dropWhile Char.isDigit
  let fr :=
    match r1 with
    | '.' :: t => (t.takeWhile Char.isDigit, t.dropWhile Char.isDigit)
    | t => (([] : List Char), t)
  if ip.isEmpty && fr.1.isEmpty then none
  else
    let mag : ℤ := (digitsToNat (ip ++ fr.1) : ℤ)
    let sd : ℤ := if p.1 then -mag else mag
    match fr.2 with
    | [] => some (Rat.divInt sd (10 ^ fr.1.length))
    | 'e' :: t => applyExp sd fr.1.length t
    | 'E' :: t => applyExp sd fr.1.length t
    | _ => none

/-- Go helper `parseFloat`: `strconv.ParseFloat` with the error discarded,
so an unparseable string becomes `0`. -/
def parseFloat (s : String) : ℚ := (goParseFloat s.toList).getD 0

/-- Four decimal digits with leading zeros, the fractional part of `%.4f`. -/
def natPad4 (m : Nat) : String :=
  if m < 10 then "000" ++ toString m
  else if m < 100 then "00" ++ toString m
  else if m < 1000 then "0" ++ toString m
  else toString m

/-- `fmt.Sprintf("%.4f", q)` for a nonnegative value: round to the nearest
multiple of `1/10000` and print with exactly four fractional digits.  The
rounded numerator `⌊q·10000 + 1/2⌋ = ⌊(20000·num + den) / (2·den)⌋` is
computed by integer floor division.  An exact tie is rounded up; a
`float64`, being a dyadic rational, can never sit exactly half way between
two four-decimal numbers, so the tie direction is unobservable on the
program's values. -/
def sprintf4Nonneg (q : ℚ) : String :=
  let m : ℕ := ((20000 * q.num + (q.den : ℤ)).ediv (2 * (q.den : ℤ))).toNat
  toString (m / 10000) ++ "." ++ natPad4 (m % 10000)

/-- `fmt.Sprintf("%.4f", q)`, signed: a negative value prints a minus sign
followed by the formatted magnitude. -/
def sprintf4 (q : ℚ) : String :=
  if q.num < 0 then "-" ++ sprintf4Nonneg (Rat.divInt (-q.num) q.den)
  else sprintf4Nonneg q

/-- A `map[string]string` record as built by `parseHeyFile`: an association
list in which the most recent insert stands first. -/
abbrev Record := List (String × String)

/-- Go map read `row[h]`: an absent key yields the zero value `""`. -/
def Record.get (r : Record) (h : String) : String := (List.lookup h r).getD ""

/-- One of the eleven metric regexps of `parseHeyFile`.  Each is a literal
(`lit`), then for the six summary fields a `\s+` gap (`ws = true`), then the
capture group `([\d.]+)`. -/
structure LinePat where
  lit : String
  ws : Bool
deriving DecidableEq

/-- Match a literal at the head of the text, returning the remainder. -/
def dropLit : List Char → List Char → Option (List Char)
  | [], cs => some cs
  | _ :: _, [] => none
  | l :: ls, c :: cs => if c == l then dropLit ls cs else none

/-- Try to match a pattern anchored at the head of `cs`, returning the text
captured by `([\d.]+)`.  `\s+` and `[\d.]+` are both greedy; their character
classes are disjoint, so greedy matching is the only matching and no
backtracking arises. -/
def matchHere (p : LinePat) (cs : List Char) : Option (List Char) :=
  match dropLit p.lit.toList cs with
  | none => none
  | some r1 =>
    let r2 :=
      if p.ws then
        if (r1.takeWhile isGoSpace).isEmpty then none
        else some (r1.dropWhile isGoSpace)
      else some r1
    match r2 with
    | none => none
    | some r3 =>
      let cap := r3.takeWhile isDigitDot
      if cap.isEmpty then none else some cap

/-- `re.FindStringSubmatch`: the capture of the leftmost match of the
pattern in the line, or `none`.  (At the empty suffix no pattern can match,
since the capture needs at least one character.) -/
def findCapture (p : LinePat) : List Char → Option (List Char)
  | [] => none
  | c :: tl =>
    match matchHere p (c :: tl) with
    | some cap => some cap
    | none => findCapture p tl

/-- `extractFloat`: capture of the first match parsed as a float, with both
a failed match and a failed parse yielding `0`. -/
def extractFloat (p : LinePat) (line : List Char) : ℚ :=
  match findCapture p line with
  | none => 0
  | some cap => (goParseFloat cap).getD 0

/-- `bufio.dropCR`: remove one trailing carriage return, if present. -/
def dropCR (l : List Char) : List Char :=
  match l.getLast? with
  | some '\r' => l.dropLast
  | _ => l

/-- Accumulating worker for `splitLines`; `cur` holds the current line
reversed. -/
def splitLinesAux (cur : List Char) : List Char → List (List Char)
  | [] => if cur.isEmpty then [] else [dropCR cur.reverse]
  | '\n' :: rest => dropCR cur.reverse :: splitLinesAux [] rest
  | c :: rest => splitLinesAux (c :: cur) rest

/-- The sequence of lines a `bufio.Scanner` with `ScanLines` yields: tokens
are the maximal `'\n'`-free pieces, each stripped of one trailing `'\r'`;
a final piece that is empty (i.e. the text ended in `'\n'` or was empty)
yields no token. -/
def splitLines (s : List Char) : List (List Char) := splitLinesAux [] s

/-- `filepath.Base` for slash-separated paths: empty path gives `"."`,
otherwise trailing slashes are dropped and the part after the last slash is
kept, a path of only slashes giving `"/"`. -/
def baseName (path : String) : String :=
  match path.toList with
  | [] => "."
  | l =>
    let l1 := (l.reverse.dropWhile (fun c => c == '/')).reverse
    if l1.isEmpty then "/"
    else String.mk ((l1.reverse.takeWhile (fun c => c != '/')).reverse)

/-- The eleven metric patterns of `parseHeyFile`: the five percentile
regexps (`NN% in ([\d.]+)`) followed by the six summary-field regexps
(`Name:\s+([\d.]+)`).  The Go source keeps them in two maps and iterates
each in unspecified order; the keys are pairwise distinct, so the fixed
order chosen here builds the same record. -/
def allPatterns : List (String × LinePat) :=
  [("p50", ⟨"50% in ", false⟩), ("p75", ⟨"75% in ", false⟩),
   ("p90", ⟨"90% in ", false⟩), ("p95", ⟨"95% in ", false⟩),
   ("p99", ⟨"99% in ", false⟩),
   ("total", ⟨"Total:", true⟩), ("fastest", ⟨"Fastest:", true⟩),
   ("slowest", ⟨"Slowest:", true⟩), ("average", ⟨"Average:", true⟩),
   ("requests_per_sec", ⟨"Requests/sec:", true⟩),
   ("size_request", ⟨"Size/request:", true⟩)]

/-- The eleven metric field names, in the order of `allPatterns`. -/
def metricKeys : List String := allPatterns.map Prod.fst

/-- The regexp `parseHeyFile` uses for a given metric key. -/
def patOf (k : String) : LinePat := (List.lookup k allPatterns).getD ⟨"", false⟩

/-- One pattern applied to one line inside `parseHeyFile`'s scan loop:
a nonzero extracted value is stored (formatted `%.4f`), zero leaves the
record unchanged. -/
def storeVal (line : List Char) (r : Record) (p : String × LinePat) : Record :=
  let val := extractFloat p.2 line
  if val = 0 then r else (p.1, sprintf4 val) :: r

/-- One iteration of `parseHeyFile`'s `scanner.Scan()` loop: every pattern
is tried against the line. -/
def applyPatterns (r : Record) (line : List Char) : Record :=
  allPatterns.foldl (storeVal line) r

/-- `parseHeyFile`.  The file's content is passed explicitly: `none` models
an unreadable file (the `os.Open` error is discarded and the scanner then
yields no lines).  The record starts as `{"file": filepath.Base(file)}` and
each line may add metric fields. -/
def parseHeyFile (content : Option String) (file : String) : Record :=
  let lines :=
    match content with
    | none => []
    | some s => splitLines s.toList
  lines.foldl applyPatterns [("file", baseName file)]

/-- The fixed header row of `writeCSV`. -/
def csvHeaders : List String :=
  ["file", "total", "average", "fastest", "slowest", "requests_per_sec",
   "size_request", "p50", "p75", "p90", "p95", "p99"]

/-- `writeCSV` at the level of CSV rows: the header row, then one row per
record with the record's value for each header (absent keys becoming `""`,
the Go map zero value). -/
def writeCSVRows (data : List Record) : List (List String) :=
  csvHeaders :: data.map (fun row => csvHeaders.map (fun h => Record.get row h))

/-- Literal match at the head of a text (`pat` first argument). -/
def startsWithL : List Char → List Char → Bool
  | [], _ => true
  | _ :: _, [] => false
  | p :: ps, c :: cs => p == c && startsWithL ps cs

/-- `strings.Contains s pat`: some contiguous run of `s` equals `pat`. -/
def containsL (s pat : List Char) : Bool :=
  match s with
  | [] => pat.isEmpty
  | _ :: tl => startsWithL pat s || containsL tl pat

/-- `strings.Contains` on strings. -/
def containsStr (s pat : String) : Bool := containsL s.toList pat.toList

/-- `inferURLFromFile`: a file name containing `"green"` is classified as
`"green-cloud"`, every other name as `"t2no3"`. -/
def inferURLFromFile (filename : String) : String :=
  if containsStr filename "green" then "green-cloud" else "t2no3"

/-- `readCSV`'s header index `index[h]`: Go assigns `index[h] = i` for each
header in order, so a later duplicate overwrites an earlier one, and a map
read of an absent key yields the zero value `0`. -/
def buildIndex (headers : List String) (h : String) : Nat :=
  (headers.enum.foldl (fun acc p => if p.2 == h then some p.1 else acc)
    none).getD 0

/-- The typed row `readCSV` builds (Go struct `HeyResult`). -/
structure HeyResult where
  URL : String
  File : String
  RPS : ℚ
  P95 : ℚ
  Average : ℚ
  Total : ℚ
deriving DecidableEq

/-- `readCSV` at the level of CSV rows: the first row is the header (an
empty file leaves the ignored `Read` error and `nil` headers, modelled by
`[]`); every remaining row becomes a `HeyResult` by positional lookup
through the header index, with the URL re-inferred from the file cell and
numeric cells parsed permissively. -/
def readCSVRows (rows : List (List String)) : List HeyResult :=
  let headers := rows.headD []
  rows.tail.map (fun row =>
    let fileV := row.getD (buildIndex headers "file") ""
    { File := fileV
      URL := inferURLFromFile fileV
      RPS := parseFloat (row.getD (buildIndex headers "requests_per_sec") "")
      P95 := parseFloat (row.getD (buildIndex headers "p95") "")
      Average := parseFloat (row.getD (buildIndex headers "average") "")
      Total := parseFloat (row.getD (buildIndex headers "total") "") })

/-- The five column names `readCSV` looks up in the header index. -/
def readerLookups : List String :=
  ["file", "requests_per_sec", "p95", "average", "total"]

/-- `extractMetric`: the Go `switch` on the metric selector, with the
`default` arm returning `0`. -/
def extractMetric (r : HeyResult) (metric : String) : ℚ :=
  if metric = "rps" then r.RPS
  else if metric = "p95" then r.P95
  else if metric = "average" then r.Average
  else if metric = "total" then r.Total
  else 0

/-- Worker for `replaceAllL`, structurally recursive on a fuel that starts
at the text's length; every step consumes at least one character and one
unit of fuel, so the fuel never runs out before the text does. -/
def replaceAllAux (pat rep : List Char) : Nat → List Char → List Char
  | _, [] => []
  | 0, s => s
  | fuel + 1, c :: tl =>
    if pat.isEmpty then c :: replaceAllAux pat rep fuel tl
    else if startsWithL pat (c :: tl) then
      rep ++ replaceAllAux pat rep fuel (tl.drop (pat.length - 1))
    else
      c :: replaceAllAux pat rep fuel tl

/-- `strings.ReplaceAll s pat rep` for a nonempty `pat` (the program only
replaces `"https://"`): scan left to right, replacing non-overlapping
occurrences. -/
def replaceAllL (pat rep s : List Char) : List Char :=
  replaceAllAux pat rep s.length s

/-- The regexp class `[^a-zA-Z0-9]` of `slugifyURL`. -/
def isAlphaNum (c : Char) : Bool :=
  ('a' ≤ c && c ≤ 'z') || ('A' ≤ c && c ≤ 'Z') || ('0' ≤ c && c ≤ '9')

/-- `slugifyURL`: drop every `"https://"` occurrence, then replace each
character outside `[a-zA-Z0-9]` with `'_'` (the single-character regexp
class makes `ReplaceAllString` a per-character map). -/
def slugifyURL (url : String) : String :=
  let slug := replaceAllL "https://".toList [] url.toList
  String.mk (slug.map (fun c => if isAlphaNum c then c else '_'))

/-! ## Theorems -/

/-- A scientific-notation rational literal `m.m' = mkRat mm' 10^e`, stated so
that concrete decimal literals reduce for `decide`
(`Rat.ofScientific` itself is `@[irreducible]`). -/
theorem ofScientificQ (m e : Nat) :
    (OfScientific.ofScientific m true e : ℚ) = mkRat m (10 ^ e) := by
  show Rat.ofScientific m true e = mkRat m (10 ^ e)
  rw [Rat.ofScientific_true_def]

/-- The report text of the end-to-end scenario in the specification. -/
def heyReportSample : String :=
  "Requests/sec:\t123.4500\n95% in 0.0456 secs\nAverage:\t0.0234 secs\nTotal:\t3.0000 secs"

/-- C1: parsing the sample report text with the extractor, writing the
resulting record with the writer and reading it back with the reader yields
exactly one `HeyResult` whose `RPS` is `123.45`, `P95` is `0.0456`,
`Average` is `0.0234` and `Total` is `3.0`. -/
theorem c1_end_to_end_pipeline :
    (readCSVRows (writeCSVRows
        [parseHeyFile (some heyReportSample) "hey_result_1.txt"])).map
        (fun r => (r.RPS, r.P95, r.Average, r.Total)) =
      [((123.45 : ℚ), (0.0456 : ℚ), (0.0234 : ℚ), (3.0 : ℚ))] := by
  simp only [ofScientificQ]
  decide

/-- C5: target-identity inference is a closed two-way classification —
a file name containing `"green"` maps to `"green-cloud"`, any other to
`"t2no3"` — and is idempotent. -/
theorem c5_infer_url_two_way (s : String) :
    (containsStr s "green" = true → inferURLFromFile s = "green-cloud") ∧
    (containsStr s "green" = false → inferURLFromFile s = "t2no3") ∧
    inferURLFromFile (inferURLFromFile s) = inferURLFromFile s := by
  by_cases h : containsStr s "green"
  · refine ⟨fun _ => ?_, fun hf => absurd h (by simp [hf]), ?_⟩
    · simp [inferURLFromFile, h]
    · simp [inferURLFromFile, h]
      decide
  · have hf : containsStr s "green" = false := by simpa using h
    refine ⟨fun ht => absurd ht (by simp [hf]), fun _ => ?_, ?_⟩
    · simp [inferURLFromFile, hf]
    · simp [inferURLFromFile, hf]
      decide

/-- Witness for C5 at concrete file names from both classes. -/
theorem c5_infer_url_two_way_witness :
    inferURLFromFile "hey_result_green_apis_nesgnas_uk_persons_1.txt" =
        "green-cloud" ∧
    inferURLFromFile "hey_result_apis_nesgnas_uk_persons_1.txt" = "t2no3" :=
  ⟨(c5_infer_url_two_way _).1 (by decide),
   (c5_infer_url_two_way _).2.1 (by decide)⟩

/-- C6: the header row written by `writeCSV` is exactly the twelve ordered
column names, and each of the five column names `readCSV` looks up occurs
in that header. -/
theorem c6_schema_agreement :
    csvHeaders =
      ["file", "total", "average", "fastest", "slowest", "requests_per_sec",
       "size_request", "p50", "p75", "p90", "p95", "p99"] ∧
    readerLookups.all (fun c => csvHeaders.contains c) = true := by
  decide

/-- C8: sanitizing the sample target yields `"example_uk_persons"` (protocol
prefix removed), and for every target string every character of the slug is
an ASCII letter, a digit, or an underscore. -/
theorem c8_slugify_safe :
    slugifyURL "https://example.uk/persons" = "example_uk_persons" ∧
    ∀ url : String, ∀ c ∈ (slugifyURL url).toList,
      isAlphaNum c = true ∨ c = '_' := by
  refine ⟨by decide, ?_⟩
  intro url c hc
  simp only [slugifyURL, String.toList, List.mem_map] at hc
  obtain ⟨a, -, rfl⟩ := hc
  by_cases h : isAlphaNum a
  · left
    simp [h]
  · right
    simp [h]

/-- Witness for C8's universal part at a concrete target and character. -/
theorem c8_slugify_safe_witness :
    isAlphaNum 'e' = true ∨ 'e' = '_' :=
  c8_slugify_safe.2 "https://example.uk/persons" 'e' (by decide)

/-- C10: the chart metric selector returns `0` for every selector string
outside the four known keys. -/
theorem c10_unknown_metric_zero (r : HeyResult) (m : String)
    (h : m ∉ (["rps", "p95", "average", "total"] : List String)) :
    extractMetric r m = 0 := by
  simp only [List.mem_cons, List.not_mem_nil, or_false, not_or] at h
  obtain ⟨h1, h2, h3, h4⟩ := h
  simp [extractMetric, h1, h2, h3, h4]

/-- Witness for C10 at a concrete row and unknown selector. -/
theorem c10_unknown_metric_zero_witness :
    extractMetric ⟨"t2no3", "f.txt", 1, 2, 3, 4⟩ "median" = 0 :=
  c10_unknown_metric_zero ⟨"t2no3", "f.txt", 1, 2, 3, 4⟩ "median" (by decide)

/-- C7: an unreadable file (the `os.Open` error is discarded and the
scanner yields nothing) produces the record holding only the `file` name —
no metric field is stored and no error reaches the caller. -/
theorem c7_unreadable_file_empty_record (path : String) :
    parseHeyFile none path = [("file", baseName path)] ∧
    ∀ k ∈ metricKeys, List.lookup k (parseHeyFile none path) = none := by
  refine ⟨rfl, ?_⟩
  intro k hk
  simp only [metricKeys, allPatterns, List.map_cons, List.map_nil,
    List.mem_cons, List.not_mem_nil, or_false] at hk
  rcases hk with rfl | rfl | rfl | rfl | rfl | rfl | rfl | rfl | rfl | rfl | rfl <;>
    rfl

/-- Witness for C7 at a concrete path and metric key. -/
theorem c7_unreadable_file_empty_record_witness :
    parseHeyFile none "hey_results/hey_result_apis_3.txt" =
        [("file", "hey_result_apis_3.txt")] ∧
    List.lookup "p95" (parseHeyFile none "hey_results/hey_result_apis_3.txt") =
      none := by
  refine ⟨?_, (c7_unreadable_file_empty_record _).2 "p95" (by decide)⟩
  rw [(c7_unreadable_file_empty_record "hey_results/hey_result_apis_3.txt").1]
  decide

/-- C2: writing any record and reading it back yields exactly one row whose
four core numeric fields are the parsed values of the record's stored
strings (an absent key stores `""`, which parses to `0`); in particular
each of the four fields of a record lacking that key reads back as `0`. -/
theorem c2_writer_reader_roundtrip (r : Record) :
    readCSVRows (writeCSVRows [r]) =
      [{ URL := inferURLFromFile (r.get "file"), File := r.get "file",
         RPS := parseFloat (r.get "requests_per_sec"),
         P95 := parseFloat (r.get "p95"),
         Average := parseFloat (r.get "average"),
         Total := parseFloat (r.get "total") }] ∧
    (List.lookup "requests_per_sec" r = none →
      (readCSVRows (writeCSVRows [r])).map (fun o => o.RPS) = [0]) ∧
    (List.lookup "p95" r = none →
      (readCSVRows (writeCSVRows [r])).map (fun o => o.P95) = [0]) ∧
    (List.lookup "average" r = none →
      (readCSVRows (writeCSVRows [r])).map (fun o => o.Average) = [0]) ∧
    (List.lookup "total" r = none →
      (readCSVRows (writeCSVRows [r])).map (fun o => o.Total) = [0]) := by
  have h1 : readCSVRows (writeCSVRows [r]) =
      [{ URL := inferURLFromFile (r.get "file"), File := r.get "file",
         RPS := parseFloat (r.get "requests_per_sec"),
         P95 := parseFloat (r.get "p95"),
         Average := parseFloat (r.get "average"),
         Total := parseFloat (r.get "total") }] := rfl
  refine ⟨h1, fun h => ?_, fun h => ?_, fun h => ?_, fun h => ?_⟩ <;>
    · rw [h1]
      simp only [List.map_cons, List.map_nil, Record.get, h, Option.getD_none]
      decide

/-- Witness for C2 at a record lacking all four core fields. -/
theorem c2_writer_reader_roundtrip_witness :
    (readCSVRows (writeCSVRows [[("file", "a.txt")]])).map (fun o => o.RPS) =
        [0] ∧
    (readCSVRows (writeCSVRows [[("file", "a.txt")]])).map (fun o => o.P95) =
        [0] ∧
    (readCSVRows (writeCSVRows [[("file", "a.txt")]])).map
        (fun o => o.Average) = [0] ∧
    (readCSVRows (writeCSVRows [[("file", "a.txt")]])).map (fun o => o.Total) =
      [0] :=
  ⟨(c2_writer_reader_roundtrip _).2.1 rfl,
   (c2_writer_reader_roundtrip _).2.2.1 rfl,
   (c2_writer_reader_roundtrip _).2.2.2.1 rfl,
   (c2_writer_reader_roundtrip _).2.2.2.2 rfl⟩

/-- C9: the reader yields exactly one row per written record, in order;
the i-th row's `File` field is the i-th record's `file` value. -/
theorem c9_order_and_count (data : List Record) :
    (readCSVRows (writeCSVRows data)).length = data.length ∧
    (readCSVRows (writeCSVRows data)).map (fun o => o.File) =
      data.map (fun r => Record.get r "file") := by
  constructor
  · simp [readCSVRows, writeCSVRows]
  · show (List.map _ (List.map _ data)).map _ = _
    simp only [List.map_map]
    rfl

/-! ### The store semantics of `parseHeyFile`

`parseHeyFile` threads a record through a fold over lines, and within each
line through a fold over the eleven patterns.  The lemmas below characterise
the final `lookup` of a metric key: it is the `%.4f` rendering of the value
extracted on the *last* line for which the key's pattern extracts a nonzero
value, and absent when there is no such line. -/

/-- Left-biased choice: the first option wins when present. -/
def orElseO {α : Type} : Option α → Option α → Option α
  | some x, _ => some x
  | none, b => b

theorem orElseO_none {α : Type} (a : Option α) : orElseO a none = a := by
  cases a <;> rfl

theorem none_orElseO {α : Type} (b : Option α) : orElseO none b = b := rfl

theorem orElseO_assoc {α : Type} (a b c : Option α) :
    orElseO (orElseO a b) c = orElseO a (orElseO b c) := by
  cases a <;> rfl

theorem orElseO_map {α β : Type} (f : α → β) (a b : Option α) :
    (orElseO a b).map f = orElseO (a.map f) (b.map f) := by
  cases a <;> rfl

/-- A fold of left-biased choices started at `a` is the same fold started
empty, with `a` as the fallback. -/
theorem foldl_orElseO_init {γ α : Type} (g : γ → Option α) (xs : List γ)
    (a : Option α) :
    xs.foldl (fun acc x => orElseO (g x) acc) a =
      orElseO (xs.foldl (fun acc x => orElseO (g x) acc) none) a := by
  induction xs generalizing a with
  | nil => rfl
  | cons x xs ih =>
    simp only [List.foldl_cons]
    rw [ih (orElseO (g x) a), ih (orElseO (g x) none), orElseO_none,
      orElseO_assoc]

/-- A fold of left-biased choices over contributions that are all `none`
yields `none`. -/
theorem foldl_orElseO_all_none {γ α : Type} (g : γ → Option α) (xs : List γ)
    (h : ∀ x ∈ xs, g x = none) :
    xs.foldl (fun acc x => orElseO (g x) acc) none = none := by
  induction xs with
  | nil => rfl
  | cons x xs ih =>
    simp only [List.foldl_cons]
    rw [h x (List.mem_cons_self x xs)]
    exact ih fun y hy => h y (List.mem_cons_of_mem x hy)

/-- `Option.map` distributes over a fold of left-biased choices. -/
theorem foldl_orElseO_map {γ α β : Type} (f : α → β) (g : γ → Option α)
    (xs : List γ) :
    (xs.foldl (fun acc x => orElseO (g x) acc) none).map f =
      xs.foldl (fun acc x => orElseO ((g x).map f) acc) none := by
  suffices h : ∀ a : Option α,
      (xs.foldl (fun acc x => orElseO (g x) acc) a).map f =
        xs.foldl (fun acc x => orElseO ((g x).map f) acc) (a.map f) from h none
  intro a
  induction xs generalizing a with
  | nil => rfl
  | cons x xs ih =>
    simp only [List.foldl_cons]
    rw [ih (orElseO (g x) a), orElseO_map]

/-- Contribution of a single pattern to the `k` entry on one line: a
pattern stores under `k` exactly when it carries key `k` and extracts a
nonzero value from the line. -/
def patContrib (line : List Char) (k : String) (p : String × LinePat) :
    Option String :=
  if p.1 = k then
    if extractFloat p.2 line = 0 then none
    else some (sprintf4 (extractFloat p.2 line))
  else none

theorem lookup_storeVal (line : List Char) (k : String) (r : Record)
    (p : String × LinePat) :
    List.lookup k (storeVal line r p) =
      orElseO (patContrib line k p) (List.lookup k r) := by
  simp only [storeVal, patContrib]
  by_cases h0 : extractFloat p.2 line = 0
  · rw [if_pos h0]
    by_cases hk : p.1 = k
    · rw [if_pos hk, if_pos h0]
      rfl
    · rw [if_neg hk]
      rfl
  · rw [if_neg h0]
    by_cases hk : p.1 = k
    · rw [if_pos hk, if_neg h0]
      subst hk
      rw [List.lookup_cons]
      simp
      rfl
    · rw [if_neg hk, List.lookup_cons]
      have hb : (k == p.1) = false := beq_eq_false_iff_ne.mpr fun he => hk he.symm
      simp [hb]
      rfl

/-- `lookup` after one line's pattern fold: the last pattern with key `k`
and a nonzero value wins, the previous record being the fallback. -/
theorem lookup_foldl_storeVal (line : List Char) (k : String)
    (pats : List (String × LinePat)) :
    ∀ r : Record,
      List.lookup k (pats.foldl (storeVal line) r) =
        orElseO
          (pats.foldl (fun acc p => orElseO (patContrib line k p) acc) none)
          (List.lookup k r) := by
  induction pats with
  | nil => intro r; rfl
  | cons p ps ih =>
    intro r
    simp only [List.foldl_cons]
    rw [ih (storeVal line r p), lookup_storeVal,
      foldl_orElseO_init (fun q => patContrib line k q) ps
        (orElseO (patContrib line k p) none),
      orElseO_none, orElseO_assoc]

/-- Value extracted for metric `k` from one line, `none` when zero:
the extractor treats a zero value as "no match". -/
def lineMetricValue (k : String) (line : List Char) : Option ℚ :=
  if extractFloat (patOf k) line = 0 then none
  else some (extractFloat (patOf k) line)

/-- Value stored for metric `k` over a whole report: the last line whose
pattern extracts a nonzero value wins; `none` when no line does. -/
def lastMetricValue (k : String) (lines : List (List Char)) : Option ℚ :=
  lines.foldl (fun acc l => orElseO (lineMetricValue k l) acc) none

/-- The pattern fold of one line collapses, for a metric key, to that single
key's contribution (every other pattern in `allPatterns` carries a different
key, so contributes `none`); the collapse hypothesis holds by reduction at
each of the eleven keys. -/
theorem patContrib_fold_collapsed (k : String) (line : List Char)
    (h : allPatterns.foldl (fun acc p => orElseO (patContrib line k p) acc)
        none =
      orElseO (patContrib line k (k, patOf k)) none) :
    allPatterns.foldl (fun acc p => orElseO (patContrib line k p) acc) none =
      (lineMetricValue k line).map sprintf4 := by
  rw [h]
  simp only [patContrib, lineMetricValue, if_pos rfl]
  by_cases h0 : extractFloat (patOf k) line = 0
  · rw [if_pos h0, if_pos h0]
    rfl
  · rw [if_neg h0, if_neg h0]
    rfl

/-- One line's pattern fold for each of the eleven metric keys. -/
theorem patContrib_fold (k : String) (hk : k ∈ metricKeys)
    (line : List Char) :
    allPatterns.foldl (fun acc p => orElseO (patContrib line k p) acc) none =
      (lineMetricValue k line).map sprintf4 := by
  simp only [metricKeys, allPatterns, List.map_cons, List.map_nil,
    List.mem_cons, List.not_mem_nil, or_false] at hk
  rcases hk with rfl | rfl | rfl | rfl | rfl | rfl | rfl | rfl | rfl | rfl |
    rfl <;>
    exact patContrib_fold_collapsed _ line rfl

/-- `lookup` of a metric key after one scan-loop iteration. -/
theorem lookup_applyPatterns (k : String) (hk : k ∈ metricKeys) (r : Record)
    (line : List Char) :
    List.lookup k (applyPatterns r line) =
      orElseO ((lineMetricValue k line).map sprintf4) (List.lookup k r) := by
  rw [show applyPatterns r line = allPatterns.foldl (storeVal line) r from rfl,
    lookup_foldl_storeVal, patContrib_fold k hk]

/-- `lookup` of a metric key after the whole scan loop: the last nonzero
line wins, with the starting record as fallback. -/
theorem lookup_foldl_lines (k : String) (hk : k ∈ metricKeys) :
    ∀ (lines : List (List Char)) (r : Record),
      List.lookup k (lines.foldl applyPatterns r) =
        orElseO ((lastMetricValue k lines).map sprintf4) (List.lookup k r) := by
  intro lines
  induction lines with
  | nil => intro r; rfl
  | cons l ls ih =>
    intro r
    simp only [List.foldl_cons, lastMetricValue]
    rw [ih (applyPatterns r l), lookup_applyPatterns k hk,
      foldl_orElseO_init (fun l => lineMetricValue k l) ls
        (orElseO (lineMetricValue k l) none),
      orElseO_none, orElseO_map, orElseO_assoc]
    rfl

/-- The store semantics of `parseHeyFile` for every metric key: the stored
string is the `%.4f` rendering of the last nonzero extracted value, and the
key is absent when every line extracts zero. -/
theorem lookup_parseHeyFile (k : String) (hk : k ∈ metricKeys)
    (text f : String) :
    List.lookup k (parseHeyFile (some text) f) =
      (lastMetricValue k (splitLines text.toList)).map sprintf4 := by
  have h0 : List.lookup k [("file", baseName f)] = none := by
    simp only [metricKeys, allPatterns, List.map_cons, List.map_nil,
      List.mem_cons, List.not_mem_nil, or_false] at hk
    rcases hk with rfl | rfl | rfl | rfl | rfl | rfl | rfl | rfl | rfl | rfl |
      rfl <;>
      rfl
  show List.lookup k
      ((splitLines text.toList).foldl applyPatterns [("file", baseName f)]) = _
  rw [lookup_foldl_lines k hk, h0, orElseO_none]

/-- C4: if the value the pattern of metric `k` extracts is zero on every
line of the report (in particular whenever every captured number parses to
exactly zero), then `k` is absent from the record `parseHeyFile` builds. -/
theorem c4_zero_value_not_stored (k : String) (hk : k ∈ metricKeys)
    (text f : String)
    (h : ∀ l ∈ splitLines text.toList, extractFloat (patOf k) l = 0) :
    List.lookup k (parseHeyFile (some text) f) = none := by
  rw [lookup_parseHeyFile k hk]
  have hl : lastMetricValue k (splitLines text.toList) = none :=
    foldl_orElseO_all_none _ _ fun l hlm => by
      simp [lineMetricValue, h l hlm]
  rw [hl]
  rfl

/-- Witness for C4 at a report with a zero `p95` line and a key with no
matching line at all. -/
theorem c4_zero_value_not_stored_witness :
    List.lookup "p95" (parseHeyFile (some "95% in 0.0000 secs") "f.txt") =
        none ∧
    List.lookup "total" (parseHeyFile (some "95% in 0.0000 secs") "f.txt") =
      none :=
  ⟨c4_zero_value_not_stored "p95" (by decide) "95% in 0.0000 secs" "f.txt"
      (by decide),
   c4_zero_value_not_stored "total" (by decide) "95% in 0.0000 secs" "f.txt"
      (by decide)⟩

end PerTools
